import Mathlib

/-!
# Glicky: dependency store and dependency list controller

A shallow embedding of two React components of the glicky client:

* `DependenciesContextProvider` (`src/client/context/DependenciesContext.js`), the
  store that owns the dependency list and the outdated check;
* `DependenciesList`
  (`src/client/routes/Dependencies/sections/DependenciesList/DependenciesList.js`),
  the controller that owns sorting, the expanded row and the delete confirmation.

`this.setState` is modelled as an immediate update of the component state, promises
are modelled by their settlement, and the socket is an oracle that answers each
request it is sent. The browser notification of `triggerNotification` does not touch
the provider and is left out. `DEPENDENCY_TYPES` and the types `Dependency` and `Sort`
come from `types`, which is not part of the sources at hand: the keys of
`DEPENDENCY_TYPES` are a parameter.
-/

namespace Glicky

/-! ## JavaScript strings

The relational operator `<` on two JavaScript strings compares their UTF-16 code
units lexicographically. -/

/-- The UTF-16 code units of one Unicode scalar value. -/
def charCodeUnits (c : Char) : List Nat :=
  if c.toNat < 0x10000 then [c.toNat]
  else [0xD800 + (c.toNat - 0x10000) / 0x400, 0xDC00 + (c.toNat - 0x10000) % 0x400]

/-- The UTF-16 code units of a string. -/
def codeUnits (s : String) : List Nat :=
  s.data.flatMap charCodeUnits

/-- JavaScript `a < b` on strings. -/
def jsLt (a b : String) : Bool :=
  decide (codeUnits a < codeUnits b)

/-! ## Data model -/

/-- A `Dependency` of `types`: the record built by `getAllDependencies`, with the
optional `installedVersion` read by the list. -/
structure Dependency where
  name : String
  version : String
  type : String
  outdated : Bool
  installedVersion : Option String
  deriving DecidableEq

/-- How a promise ends: resolved with a value, rejected, or never settled. -/
inductive Settled (α : Type) where
  | resolved (value : α)
  | rejected
  | pending
  deriving DecidableEq

/-- The value passed to the callback of a `'request'` message, as far as the store
looks at it: `undefined`/`null`, another falsy value, or a truthy value together
with the truthiness of its `error` property. -/
inductive Response where
  | nullish
  | falsy
  | value (error : Bool)
  deriving DecidableEq

/-- The payload of a `'request'` message. -/
structure Request where
  resource : String
  dependencyName : String
  dependencyType : String
  deriving DecidableEq

/-- The socket of the props: what it answers to a `'package'` message (a falsy value,
`none`, or the entries of the manifest section in `Object.entries` order) and to a
`'request'` message. -/
structure Socket where
  package : String → Option (List (String × String))
  request : Request → Response

/-- The settings of the props, by the truthiness of the two properties that are read. -/
structure Settings where
  dependenciesCheckOnStartup : Bool
  filterOutdatedDependencies : Bool

/-- The props of `DependenciesContextProvider` that its methods read. -/
structure Props where
  socket : Option Socket
  settings : Option Settings

namespace DependenciesContext

/-- The provider instance: its React state (`dependencies`, `outdatedDependencies`),
the instance field `hasFetchedOutdatedDeps`, and the log of the commands sent with an
`'exec'` message, most recent last. -/
structure Provider where
  dependencies : List Dependency
  outdatedDependencies : List String
  hasFetchedOutdatedDeps : Bool
  execLog : List String
  deriving DecidableEq

/-- The provider as constructed. -/
def initial : Provider :=
  { dependencies := [], outdatedDependencies := [], hasFetchedOutdatedDeps := false,
    execLog := [] }

/-- The method `getOutdatedDependencies`, up to the emission of the `'exec'` message. -/
def getOutdatedDependencies (p : Props) (s : Provider) : Provider :=
  if s.hasFetchedOutdatedDeps || p.socket.isNone then s
  else { s with hasFetchedOutdatedDeps := true,
                execLog := s.execLog ++ ["npm outdated --json"] }

/-- The callback of the `'exec'` message, given `Object.keys(JSON.parse(json))`. -/
def execCallback (outdatedDependencies : List String) (s : Provider) : Provider :=
  { s with outdatedDependencies := outdatedDependencies }

/-- The method `componentDidMount`. -/
def componentDidMount (p : Props) (s : Provider) : Provider :=
  match p.settings with
  | some settings =>
    if settings.dependenciesCheckOnStartup then getOutdatedDependencies p s else s
  | none => s

/-- The method `getDependencies`: `none` when the promise rejects (no socket). -/
def getDependencies (p : Props) (type : String) :
    Option (Option (List (String × String))) :=
  match p.socket with
  | some socket => some (socket.package type)
  | none => none

/-- The `reduce` of `getAllDependencies` over the entries of one manifest section. -/
def packagesOf (dependencyType : String) (entries : List (String × String)) :
    List Dependency :=
  entries.foldl
    (fun arr entry =>
      arr ++ [{ name := entry.1, version := entry.2, outdated := false,
                type := dependencyType, installedVersion := none }])
    []

/-- The `for … of` loop of `getAllDependencies`, with the array built so far. -/
def getAllDependenciesLoop (p : Props) :
    List String → List Dependency → Option (List Dependency)
  | [], dependencies => some dependencies
  | dependencyType :: rest, dependencies =>
    match getDependencies p dependencyType with
    | none => none
    | some none => getAllDependenciesLoop p rest dependencies
    | some (some fetchedDependencies) =>
      getAllDependenciesLoop p rest (dependencies ++ packagesOf dependencyType fetchedDependencies)

/-- The method `getAllDependencies`; `dependencyTypes` is `Object.keys(DEPENDENCY_TYPES)`
and `none` is a rejected promise. -/
def getAllDependencies (p : Props) (dependencyTypes : List String) :
    Option (List Dependency) :=
  getAllDependenciesLoop p dependencyTypes []

/-- The method `fetchDependencies`. -/
def fetchDependencies (dependencyTypes : List String) (p : Props) (s : Provider) :
    Provider :=
  match getAllDependencies p dependencyTypes with
  | none => s
  | some dependencies => getOutdatedDependencies p { s with dependencies := dependencies }

/-- The method `_addDependency`. -/
def _addDependency (p : Props) (dependencyName dependencyType : String) : Settled Unit :=
  match p.socket with
  | none => .rejected
  | some socket =>
    match socket.request { resource := "add-dependency", dependencyName := dependencyName,
                           dependencyType := dependencyType } with
    | .nullish => .pending
    | .falsy => .resolved ()
    | .value error => if !error then .resolved () else .rejected

/-- The method `_deleteDependency`. -/
def _deleteDependency (p : Props) (dependency : Dependency) : Settled Response :=
  match p.socket with
  | none => .rejected
  | some socket =>
    match socket.request { resource := "remove-dependency",
                           dependencyName := dependency.name,
                           dependencyType := dependency.type } with
    | .nullish => .rejected
    | .falsy => .rejected
    | .value error => .resolved (.value error)

/-- The method `addDependency`: the provider afterwards and how the promise ends. -/
def addDependency (dependencyTypes : List String) (p : Props) (s : Provider)
    (dependencyName dependencyType : String) : Provider × Settled Unit :=
  match _addDependency p dependencyName dependencyType with
  | .resolved _ =>
    match getAllDependencies p dependencyTypes with
    | some dependencies => ({ s with dependencies := dependencies }, .resolved ())
    | none => (s, .rejected)
  | .rejected => (s, .rejected)
  | .pending => (s, .pending)

/-- The method `deleteDependency`: the provider afterwards and how the promise ends;
the resolved value `{ ...currDependency }` is `none` for the empty object. -/
def deleteDependency (p : Props) (s : Provider) (dependency : Dependency) :
    Provider × Settled (Option Dependency) :=
  let currDependency := s.dependencies.find? (fun dep => dep.name == dependency.name)
  match _deleteDependency p dependency with
  | .resolved _ =>
    ({ s with dependencies := s.dependencies.filter (fun dep => dep.name != dependency.name) },
      .resolved currDependency)
  | .rejected => (s, .rejected)
  | .pending => (s, .pending)

/-- The truthiness of `filterOutdatedDependencies` in `this.props.settings || {}`. -/
def filterOutdatedDependencies (p : Props) : Bool :=
  match p.settings with
  | some settings => settings.filterOutdatedDependencies
  | none => false

/-- The `dependencies` of the context value built by `render`. -/
def render (p : Props) (s : Provider) : List Dependency :=
  if filterOutdatedDependencies p then
    (s.dependencies.filter (fun dependency => s.outdatedDependencies.contains dependency.name)).map
      (fun dependency => { dependency with outdated := true })
  else if s.outdatedDependencies.length > 0 then
    s.dependencies.map
      (fun dependency =>
        { dependency with outdated := s.outdatedDependencies.contains dependency.name })
  else s.dependencies

/-- The operations on one provider instance. -/
inductive Op where
  | componentDidMount
  | fetchDependencies
  | getOutdatedDependencies
  | execCallback (outdatedDependencies : List String)
  | addDependency (dependencyName dependencyType : String)
  | deleteDependency (dependency : Dependency)

/-- One operation under the props of the moment. The `'exec'` callback runs only in
answer to an emitted message. -/
def step (dependencyTypes : List String) (s : Provider) (call : Props × Op) : Provider :=
  match call.2 with
  | .componentDidMount => componentDidMount call.1 s
  | .fetchDependencies => fetchDependencies dependencyTypes call.1 s
  | .getOutdatedDependencies => getOutdatedDependencies call.1 s
  | .execCallback outdatedDependencies =>
    if s.execLog.isEmpty then s else execCallback outdatedDependencies s
  | .addDependency dependencyName dependencyType =>
    (addDependency dependencyTypes call.1 s dependencyName dependencyType).1
  | .deleteDependency dependency => (deleteDependency call.1 s dependency).1

/-- A sequence of operations from a given provider. -/
def run (dependencyTypes : List String) (s : Provider) (calls : List (Props × Op)) :
    Provider :=
  calls.foldl (step dependencyTypes) s

/-- The entries of one manifest section as dependencies of that type, none for a
falsy section. -/
def manifestSection (socket : Socket) (dependencyType : String) : List Dependency :=
  match socket.package dependencyType with
  | none => []
  | some entries =>
    entries.map
      (fun entry =>
        { name := entry.1, version := entry.2, type := dependencyType, outdated := false,
          installedVersion := none })

/-- The payload of the `'request'` message that removes `dependency`. -/
def removeRequest (dependency : Dependency) : Request :=
  { resource := "remove-dependency", dependencyName := dependency.name,
    dependencyType := dependency.type }

/-- The payload of the `'request'` message that adds a dependency. -/
def addRequest (dependencyName dependencyType : String) : Request :=
  { resource := "add-dependency", dependencyName := dependencyName,
    dependencyType := dependencyType }

/-- A socket with a `dependencies` section `lodash` and a `devDependencies` section
`jest` and `lodash`, that accepts every mutation. -/
def exampleSocket : Socket :=
  { package := fun type =>
      if type = "dependencies" then some [("lodash", "4.17.11")]
      else if type = "devDependencies" then some [("jest", "23.6.0"), ("lodash", "4.17.11")]
      else none
    request := fun _ => .value false }

/-- A socket that refuses every mutation: an `error` for `add-dependency`, no
response for `remove-dependency`. -/
def refusingSocket : Socket :=
  { package := exampleSocket.package
    request := fun request =>
      if request.resource = "add-dependency" then .value true else .nullish }

/-- The props with the example socket and no settings. -/
def exampleProps : Props :=
  { socket := some exampleSocket, settings := none }

/-- The props with the example socket and the outdated filter switched on. -/
def filteringProps : Props :=
  { socket := some exampleSocket,
    settings := some { dependenciesCheckOnStartup := true, filterOutdatedDependencies := true } }

/-- The props with the refusing socket. -/
def refusingProps : Props :=
  { socket := some refusingSocket, settings := none }

/-- The guard and the log agree: nothing is logged before the guard is set and one
command after. -/
def guardMatchesLog (s : Provider) : Prop :=
  s.execLog = if s.hasFetchedOutdatedDeps then ["npm outdated --json"] else []

/-- The keys of `DEPENDENCY_TYPES` used in the examples. -/
def exampleTypes : List String :=
  ["dependencies", "devDependencies", "peerDependencies"]

end DependenciesContext

namespace DependenciesList

/-- The type `SortKey`. -/
inductive SortKey where
  | name
  | type
  deriving DecidableEq

/-- The order of a `Sort`: `'asc'` or `'desc'`. -/
inductive Order where
  | asc
  | desc
  deriving DecidableEq

/-- The type `Sort<SortKey>` of `types`, the `SortDescriptor` of the specification. -/
structure SortDescriptor where
  key : SortKey
  order : Order
  deriving DecidableEq

/-- The React state of `DependenciesList`. -/
structure State where
  expandedItem : Bool
  expandedDependency : Option Dependency
  sort : SortDescriptor
  deletingDependency : Bool
  modalOpen : Bool
  deriving DecidableEq

/-- The state as constructed. -/
def initial : State :=
  { expandedItem := false, expandedDependency := none,
    sort := { key := .name, order := .asc }, deletingDependency := false,
    modalOpen := false }

/-- The comparator passed to `sort` in `sortDependencies`. -/
def compareFn (sort : SortDescriptor) (a b : Dependency) : Int :=
  if sort.key = .type then
    if jsLt a.type b.type then
      (if sort.order = .asc then -1 else 1)
    else if jsLt b.type a.type then
      (if sort.order = .asc then 1 else -1)
    else
      (if jsLt a.name b.name then -1 else 1)
  else if jsLt a.name b.name then
    (if sort.order = .asc then -1 else 1)
  else if jsLt b.name a.name then
    (if sort.order = .asc then 1 else -1)
  else 0

/-- Insertion of `a` in front of the first element that it does not compare after. -/
def sortInsert {α : Type} (comparefn : α → α → Int) (a : α) : List α → List α
  | [] => [a]
  | b :: l => if comparefn a b ≤ 0 then a :: b :: l else b :: sortInsert comparefn a l

/-- The method `Array.prototype.sort(comparefn)` as a stable insertion sort. -/
def arraySort {α : Type} (comparefn : α → α → Int) : List α → List α
  | [] => []
  | a :: l => sortInsert comparefn a (arraySort comparefn l)

/-- The method `sortDependencies`, on the contents of the arrays. -/
def sortDependencies (s : State) (dependencies : List Dependency) : List Dependency :=
  arraySort (compareFn s.sort) dependencies

/-- The arrays in memory: the contents of the array with reference `r` are `heap[r]`. -/
abbrev Heap := List (List Dependency)

/-- The spread `[...array]`: a new array with the same contents. -/
def spread (heap : Heap) (array : Nat) : Heap × Nat :=
  (heap ++ [heap.getD array []], heap.length)

/-- The method `sort` on a reference: the receiver is sorted in place and returned. -/
def sortInPlace (comparefn : Dependency → Dependency → Int) (heap : Heap) (array : Nat) :
    Heap × Nat :=
  (heap.set array (arraySort comparefn (heap.getD array [])), array)

/-- The method `sortDependencies`, on references to arrays. -/
def sortDependenciesRef (s : State) (heap : Heap) (dependencies : Nat) : Heap × Nat :=
  let copy := spread heap dependencies
  sortInPlace (compareFn s.sort) copy.1 copy.2

/-- The method `setSort`. -/
def setSort (s : State) (sortKey : SortKey) : State :=
  { s with
    sort :=
      { key := sortKey
        order :=
          if s.sort.key = sortKey then (if s.sort.order = .asc then .desc else .asc)
          else .asc } }

/-- The method `togglePanel`. -/
def togglePanel (s : State) (dependency : Dependency) : State :=
  match s.expandedItem, s.expandedDependency with
  | true, some expandedDependency =>
    if expandedDependency.name = dependency.name then { s with expandedItem := false }
    else { s with expandedDependency := some dependency, expandedItem := true }
  | _, _ => { s with expandedItem := true, expandedDependency := some dependency }

/-- The value `expanded` that `render` computes for the row of `dependency`. -/
def expanded (s : State) (dependency : Dependency) : Bool :=
  s.expandedItem &&
    (match s.expandedDependency with
     | some expandedDependency => expandedDependency.name == dependency.name
     | none => false)

/-- The method `handleDependencyRequestDelete`. -/
def handleDependencyRequestDelete (s : State) : State :=
  { s with modalOpen := true }

/-- The method `handleModalRequestClose`. -/
def handleModalRequestClose (s : State) : State :=
  { s with modalOpen := false }

/-- The method `handleDependencyDelete`: the state afterwards and the argument of the
call of `this.props.deleteDependency` that it makes, if it makes one. -/
def handleDependencyDelete (s : State) : State × Option Dependency :=
  match s.expandedDependency with
  | none => (s, none)
  | some expandedDependency =>
    if s.deletingDependency then (s, none)
    else ({ s with deletingDependency := true }, some expandedDependency)

/-- The `then` callback of `handleDependencyDelete`. -/
def deleteResolved (s : State) : State :=
  { s with deletingDependency := false, modalOpen := false }

/-- The `catch` callback of `handleDependencyDelete`. -/
def deleteRejected (s : State) : State :=
  s

/-- The handlers of the controller and the two completions of a delete. -/
inductive Event where
  | togglePanel (dependency : Dependency)
  | setSort (sortKey : SortKey)
  | handleDependencyRequestDelete
  | handleModalRequestClose
  | handleDependencyDelete
  | deleteResolved
  | deleteRejected

/-- One event. -/
def step (s : State) : Event → State
  | .togglePanel dependency => togglePanel s dependency
  | .setSort sortKey => setSort s sortKey
  | .handleDependencyRequestDelete => handleDependencyRequestDelete s
  | .handleModalRequestClose => handleModalRequestClose s
  | .handleDependencyDelete => (handleDependencyDelete s).1
  | .deleteResolved => deleteResolved s
  | .deleteRejected => deleteRejected s

/-- A sequence of events from a given state. -/
def run (s : State) (events : List Event) : State :=
  events.foldl step s

/-- Whether the type of `a` comes strictly before the type of `b` in the given order. -/
def typeBefore (order : Order) (a b : Dependency) : Bool :=
  match order with
  | .asc => jsLt a.type b.type
  | .desc => jsLt b.type a.type

/-- Whether the name of `a` comes strictly before the name of `b` in the given order. -/
def nameBefore (order : Order) (a b : Dependency) : Bool :=
  match order with
  | .asc => jsLt a.name b.name
  | .desc => jsLt b.name a.name

/-- The state with a given sort and nothing else changed from the initial state. -/
def sortedBy (key : SortKey) (order : Order) : State :=
  { initial with sort := { key := key, order := order } }

end DependenciesList

end Glicky

namespace Glicky

namespace DependenciesContext

/-! ## The store: building the list -/

theorem foldl_push_eq_map {α β : Type} (f : α → β) (entries : List α) (arr : List β) :
    entries.foldl (fun acc entry => acc ++ [f entry]) arr = arr ++ entries.map f := by
  induction entries generalizing arr with
  | nil => simp
  | cons e es ih => simp [List.foldl_cons, ih]

theorem packagesOf_eq_map (dependencyType : String) (entries : List (String × String)) :
    packagesOf dependencyType entries =
      entries.map
        (fun entry =>
          { name := entry.1, version := entry.2, type := dependencyType, outdated := false,
            installedVersion := none }) := by
  unfold packagesOf
  rw [foldl_push_eq_map
    (fun entry : String × String =>
      ({ name := entry.1, version := entry.2, outdated := false, type := dependencyType,
         installedVersion := none } : Dependency))]
  simp

theorem getAllDependenciesLoop_eq (p : Props) (socket : Socket) (h : p.socket = some socket)
    (dependencyTypes : List String) (dependencies : List Dependency) :
    getAllDependenciesLoop p dependencyTypes dependencies =
      some (dependencies ++ dependencyTypes.flatMap (manifestSection socket)) := by
  induction dependencyTypes generalizing dependencies with
  | nil => simp [getAllDependenciesLoop]
  | cons t ts ih =>
    cases hm : socket.package t with
    | none =>
      simp [getAllDependenciesLoop, getDependencies, h, hm, ih, manifestSection]
    | some entries =>
      simp [getAllDependenciesLoop, getDependencies, h, hm, ih, manifestSection,
        packagesOf_eq_map]

theorem getAllDependencies_eq (p : Props) (socket : Socket) (h : p.socket = some socket)
    (dependencyTypes : List String) :
    getAllDependencies p dependencyTypes =
      some (dependencyTypes.flatMap (manifestSection socket)) := by
  simp [getAllDependencies, getAllDependenciesLoop_eq p socket h]

theorem getOutdatedDependencies_dependencies (p : Props) (s : Provider) :
    (getOutdatedDependencies p s).dependencies = s.dependencies := by
  unfold getOutdatedDependencies
  split <;> rfl

theorem mem_manifestSection {socket : Socket} {dependencyType : String} {d : Dependency}
    (h : d ∈ manifestSection socket dependencyType) :
    d.type = dependencyType ∧ d.outdated = false ∧ d.installedVersion = none ∧
      ∃ entries, socket.package dependencyType = some entries ∧ (d.name, d.version) ∈ entries := by
  unfold manifestSection at h
  cases hm : socket.package dependencyType with
  | none => simp [hm] at h
  | some entries =>
    simp only [hm, List.mem_map] at h
    obtain ⟨e, he, rfl⟩ := h
    exact ⟨rfl, rfl, rfl, entries, rfl, he⟩

end DependenciesContext

end Glicky

namespace Glicky

namespace DependenciesContext

/-- C5. With a socket, `getAllDependencies` resolves with the concatenation, in the
order of the keys of `DEPENDENCY_TYPES`, of the entries of each truthy manifest
section, each as a dependency of that section's type with `outdated` false;
`fetchDependencies` stores exactly that list, whatever was stored before; and every
stored entry has a type of the enumeration whose manifest query was truthy and
comes from an entry of that section. -/
theorem fetchDependencies_builds_list (dependencyTypes : List String) (p : Props)
    (socket : Socket) (s : Provider) (h : p.socket = some socket) :
    getAllDependencies p dependencyTypes =
        some (dependencyTypes.flatMap (manifestSection socket)) ∧
      (fetchDependencies dependencyTypes p s).dependencies =
        dependencyTypes.flatMap (manifestSection socket) ∧
      ∀ d ∈ (fetchDependencies dependencyTypes p s).dependencies,
        d.type ∈ dependencyTypes ∧ d.outdated = false ∧
          ∃ entries, socket.package d.type = some entries ∧ (d.name, d.version) ∈ entries := by
  have hall := getAllDependencies_eq p socket h dependencyTypes
  have hfetch : (fetchDependencies dependencyTypes p s).dependencies =
      dependencyTypes.flatMap (manifestSection socket) := by
    simp [fetchDependencies, hall, getOutdatedDependencies_dependencies]
  refine ⟨hall, hfetch, ?_⟩
  intro d hd
  rw [hfetch, List.mem_flatMap] at hd
  obtain ⟨t, ht, hdt⟩ := hd
  obtain ⟨h1, h2, _, entries, h4, h5⟩ := mem_manifestSection hdt
  subst h1
  exact ⟨ht, h2, entries, h4, h5⟩

/-- Witness of C5 on the example socket: the stale entry is replaced by the entries of
the two truthy sections, in enumeration order. -/
theorem fetchDependencies_builds_list_witness :
    exampleProps.socket = some exampleSocket ∧
      (fetchDependencies exampleTypes exampleProps
          { initial with
            dependencies := [⟨"stale", "0.0.1", "peerDependencies", true, none⟩] }).dependencies =
        [⟨"lodash", "4.17.11", "dependencies", false, none⟩,
         ⟨"jest", "23.6.0", "devDependencies", false, none⟩,
         ⟨"lodash", "4.17.11", "devDependencies", false, none⟩] :=
  ⟨rfl,
    (fetchDependencies_builds_list exampleTypes exampleProps exampleSocket
        { initial with dependencies := [⟨"stale", "0.0.1", "peerDependencies", true, none⟩] }
        rfl).2.1.trans (by decide)⟩

/-- C2. When the socket answers the `add-dependency` request with an `error`,
`addDependency` rejects and leaves the provider, the stored list included, as it
was; when it answers the `remove-dependency` request with a falsy value,
`deleteDependency` rejects and leaves the provider as it was. -/
theorem failed_mutation_leaves_list (dependencyTypes : List String) (p : Props)
    (socket : Socket) (s : Provider) (h : p.socket = some socket) :
    (∀ dependencyName dependencyType : String,
        socket.request (addRequest dependencyName dependencyType) = .value true →
        addDependency dependencyTypes p s dependencyName dependencyType = (s, .rejected)) ∧
      (∀ dependency : Dependency,
        (socket.request (removeRequest dependency) = .nullish ∨
          socket.request (removeRequest dependency) = .falsy) →
        deleteDependency p s dependency = (s, .rejected)) := by
  constructor
  · intro dependencyName dependencyType herr
    simp only [addRequest] at herr
    simp [addDependency, _addDependency, h, herr]
  · intro dependency hres
    simp only [removeRequest] at hres
    rcases hres with hres | hres <;>
      simp [deleteDependency, _deleteDependency, h, hres]

/-- Witness of C2 on the refusing socket, with the list fetched from the example
socket. -/
theorem failed_mutation_leaves_list_witness :
    addDependency exampleTypes refusingProps
        (fetchDependencies exampleTypes exampleProps initial) "react" "dependencies" =
        (fetchDependencies exampleTypes exampleProps initial, .rejected) ∧
      deleteDependency refusingProps (fetchDependencies exampleTypes exampleProps initial)
        ⟨"jest", "23.6.0", "devDependencies", false, none⟩ =
        (fetchDependencies exampleTypes exampleProps initial, .rejected) :=
  ⟨(failed_mutation_leaves_list exampleTypes refusingProps refusingSocket
        (fetchDependencies exampleTypes exampleProps initial) rfl).1 "react" "dependencies"
        (by decide),
    (failed_mutation_leaves_list exampleTypes refusingProps refusingSocket
        (fetchDependencies exampleTypes exampleProps initial) rfl).2
        ⟨"jest", "23.6.0", "devDependencies", false, none⟩ (Or.inl (by decide))⟩

end DependenciesContext

end Glicky

namespace Glicky

namespace DependenciesContext

/-! ## The store: deleting -/

theorem filter_find_of_countP_one (name : String) (l : List Dependency)
    (h : l.countP (fun dep => dep.name == name) = 1) :
    ∃ pre e post, l = pre ++ e :: post ∧ e.name = name ∧
      (∀ dep ∈ pre ++ post, dep.name ≠ name) ∧
      l.filter (fun dep => dep.name != name) = pre ++ post ∧
      l.find? (fun dep => dep.name == name) = some e := by
  induction l with
  | nil => simp at h
  | cons a l ih =>
    by_cases ha : a.name = name
    · have h0 : l.countP (fun dep => dep.name == name) = 0 := by
        simpa [List.countP_cons, ha] using h
      have hall : ∀ dep ∈ l, dep.name ≠ name := by
        simpa [List.countP_eq_zero] using h0
      refine ⟨[], a, l, rfl, ha, by simpa using hall, ?_, ?_⟩
      · simp only [List.nil_append]
        rw [List.filter_cons_of_neg (by simp [ha])]
        exact List.filter_eq_self.mpr (fun dep hdep => by simpa using hall dep hdep)
      · simp [List.find?_cons, ha]
    · have h1 : l.countP (fun dep => dep.name == name) = 1 := by
        simpa [List.countP_cons, ha] using h
      obtain ⟨pre, e, post, hl, he, hne, hfilter, hfind⟩ := ih h1
      refine ⟨a :: pre, e, post, by simp [hl], he, ?_, ?_, ?_⟩
      · intro dep hdep
        simp only [List.cons_append, List.mem_cons] at hdep
        rcases hdep with rfl | hdep
        · exact ha
        · exact hne dep hdep
      · rw [List.filter_cons_of_pos (by simp [ha]), hfilter]
        rfl
      · simp [List.find?_cons, ha, hfind]

/-- C1, counterexample. With `lodash` stored both as a production and as a development
dependency, a successful `deleteDependency` of `lodash` removes two entries. -/
theorem deleteDependency_removes_both_lodash :
    (fetchDependencies exampleTypes exampleProps initial).dependencies.length = 3 ∧
      (deleteDependency exampleProps (fetchDependencies exampleTypes exampleProps initial)
          ⟨"lodash", "4.17.11", "dependencies", false, none⟩).2 =
        .resolved (some ⟨"lodash", "4.17.11", "dependencies", false, none⟩) ∧
      (deleteDependency exampleProps (fetchDependencies exampleTypes exampleProps initial)
          ⟨"lodash", "4.17.11", "dependencies", false, none⟩).1.dependencies =
        [⟨"jest", "23.6.0", "devDependencies", false, none⟩] ∧
      ¬ ((deleteDependency exampleProps (fetchDependencies exampleTypes exampleProps initial)
          ⟨"lodash", "4.17.11", "dependencies", false, none⟩).1.dependencies.length + 1 =
        (fetchDependencies exampleTypes exampleProps initial).dependencies.length) := by
  decide

/-- C1, amended. When the socket answers the `remove-dependency` request with a truthy
value, `deleteDependency` changes only the stored list, which becomes the stored list
without every entry named `dependency.name`, the other entries in their order, and it
resolves with the first stored entry of that name (with the empty object if there is
none); when exactly one stored entry has that name, exactly that entry is removed and
the promise resolves with it. -/
theorem deleteDependency_removes_by_name (p : Props) (socket : Socket) (s : Provider)
    (dependency : Dependency) (error : Bool) (h : p.socket = some socket)
    (hres : socket.request (removeRequest dependency) = .value error) :
    deleteDependency p s dependency =
        ({ s with
            dependencies := s.dependencies.filter (fun dep => dep.name != dependency.name) },
          .resolved (s.dependencies.find? (fun dep => dep.name == dependency.name))) ∧
      (∀ dep, dep ∈ (deleteDependency p s dependency).1.dependencies ↔
        dep ∈ s.dependencies ∧ dep.name ≠ dependency.name) ∧
      (deleteDependency p s dependency).1.dependencies.Sublist s.dependencies ∧
      (s.dependencies.countP (fun dep => dep.name == dependency.name) = 1 →
        ∃ pre e post, s.dependencies = pre ++ e :: post ∧ e.name = dependency.name ∧
          (∀ dep ∈ pre ++ post, dep.name ≠ dependency.name) ∧
          (deleteDependency p s dependency).1.dependencies = pre ++ post ∧
          (deleteDependency p s dependency).2 = .resolved (some e)) := by
  simp only [removeRequest] at hres
  have heq : deleteDependency p s dependency =
      ({ s with
          dependencies := s.dependencies.filter (fun dep => dep.name != dependency.name) },
        .resolved (s.dependencies.find? (fun dep => dep.name == dependency.name))) := by
    simp [deleteDependency, _deleteDependency, h, hres]
  refine ⟨heq, ?_, ?_, ?_⟩
  · intro dep
    simp [heq]
  · rw [heq]
    exact List.filter_sublist _
  · intro hone
    obtain ⟨pre, e, post, hl, he, hne, hfilter, hfind⟩ :=
      filter_find_of_countP_one dependency.name s.dependencies hone
    exact ⟨pre, e, post, hl, he, hne, by rw [heq]; exact hfilter, by rw [heq, hfind]⟩

/-- Witness of the amended C1: `jest` is stored once and is the one entry removed. -/
theorem deleteDependency_removes_by_name_witness :
    exampleProps.socket = some exampleSocket ∧
      deleteDependency exampleProps (fetchDependencies exampleTypes exampleProps initial)
          ⟨"jest", "1.0.0", "dependencies", true, none⟩ =
        ({ fetchDependencies exampleTypes exampleProps initial with
            dependencies :=
              [⟨"lodash", "4.17.11", "dependencies", false, none⟩,
               ⟨"lodash", "4.17.11", "devDependencies", false, none⟩] },
          .resolved (some ⟨"jest", "23.6.0", "devDependencies", false, none⟩)) :=
  ⟨rfl,
    (deleteDependency_removes_by_name exampleProps exampleSocket
        (fetchDependencies exampleTypes exampleProps initial)
        ⟨"jest", "1.0.0", "dependencies", true, none⟩ false rfl rfl).1.trans (by decide)⟩

end DependenciesContext

end Glicky

namespace Glicky

namespace DependenciesContext

/-! ## The store: invariants of the operations -/

theorem getAllDependenciesLoop_outdated_false (p : Props) (dependencyTypes : List String) :
    ∀ (dependencies result : List Dependency),
      (∀ d ∈ dependencies, d.outdated = false) →
      getAllDependenciesLoop p dependencyTypes dependencies = some result →
      ∀ d ∈ result, d.outdated = false := by
  induction dependencyTypes with
  | nil =>
    intro dependencies result hacc hres
    simp only [getAllDependenciesLoop, Option.some.injEq] at hres
    subst hres
    exact hacc
  | cons t ts ih =>
    intro dependencies result hacc hres
    cases hg : getDependencies p t with
    | none => simp [getAllDependenciesLoop, hg] at hres
    | some fetched =>
      cases fetched with
      | none =>
        simp only [getAllDependenciesLoop, hg] at hres
        exact ih dependencies result hacc hres
      | some entries =>
        simp only [getAllDependenciesLoop, hg] at hres
        refine ih _ result ?_ hres
        intro d hd
        rw [List.mem_append] at hd
        rcases hd with hd | hd
        · exact hacc d hd
        · rw [packagesOf_eq_map, List.mem_map] at hd
          obtain ⟨e, _, rfl⟩ := hd
          rfl

theorem step_outdated_false (dependencyTypes : List String) (s : Provider)
    (call : Props × Op) (h : ∀ d ∈ s.dependencies, d.outdated = false) :
    ∀ d ∈ (step dependencyTypes s call).dependencies, d.outdated = false := by
  obtain ⟨p, op⟩ := call
  cases op with
  | componentDidMount =>
    simp only [step, componentDidMount]
    split
    · split
      · rw [getOutdatedDependencies_dependencies]; exact h
      · exact h
    · exact h
  | fetchDependencies =>
    simp only [step, fetchDependencies]
    cases hall : getAllDependencies p dependencyTypes with
    | none => exact h
    | some deps =>
      simp only [getOutdatedDependencies_dependencies]
      exact getAllDependenciesLoop_outdated_false p dependencyTypes [] deps (by simp) hall
  | getOutdatedDependencies =>
    simp only [step]
    rw [getOutdatedDependencies_dependencies]; exact h
  | execCallback out =>
    simp only [step, execCallback]
    split <;> exact h
  | addDependency n t =>
    simp only [step, addDependency]
    cases _addDependency p n t with
    | resolved v =>
      cases hall : getAllDependencies p dependencyTypes with
      | none => exact h
      | some deps =>
        exact getAllDependenciesLoop_outdated_false p dependencyTypes [] deps (by simp) hall
    | rejected => exact h
    | pending => exact h
  | deleteDependency dep =>
    simp only [step, deleteDependency]
    cases _deleteDependency p dep with
    | resolved v =>
      intro d hd
      exact h d (List.mem_of_mem_filter hd)
    | rejected => exact h
    | pending => exact h

theorem run_outdated_false (dependencyTypes : List String) (calls : List (Props × Op)) :
    ∀ s : Provider, (∀ d ∈ s.dependencies, d.outdated = false) →
      ∀ d ∈ (run dependencyTypes s calls).dependencies, d.outdated = false := by
  induction calls with
  | nil => intro s h; exact h
  | cons c cs ih =>
    intro s h
    exact ih (step dependencyTypes s c) (step_outdated_false dependencyTypes s c h)

theorem map_outdated_of_nil (l : List Dependency) (h : ∀ d ∈ l, d.outdated = false) :
    l.map (fun d => { d with outdated := decide (d.name ∈ ([] : List String)) }) = l := by
  induction l with
  | nil => rfl
  | cons a l ih =>
    have ha : a.outdated = false := h a (List.mem_cons_self a l)
    have hl := ih (fun d hd => h d (List.mem_cons_of_mem a hd))
    simp only [List.map_cons, hl]
    congr 1
    cases a
    simp_all

/-- C3. For the list stored after any sequence of operations from the initial
provider, and any outdated set: with the filter flag off, the view of `render` is the
stored list, entry by entry in the same order, with `outdated` set to whether the name
is in the outdated set; with the filter flag on, it is the entries of the stored list
whose name is in the outdated set, in the same order, each with `outdated` true. -/
theorem render_view (dependencyTypes : List String) (calls : List (Props × Op)) (p : Props)
    (outdated : List String) :
    (filterOutdatedDependencies p = false →
        render p { run dependencyTypes initial calls with outdatedDependencies := outdated } =
          (run dependencyTypes initial calls).dependencies.map
            (fun d => { d with outdated := decide (d.name ∈ outdated) })) ∧
      (filterOutdatedDependencies p = true →
        render p { run dependencyTypes initial calls with outdatedDependencies := outdated } =
          ((run dependencyTypes initial calls).dependencies.filter
              (fun d => decide (d.name ∈ outdated))).map
            (fun d => { d with outdated := true })) := by
  constructor
  · intro hflag
    cases outdated with
    | nil =>
      have hinv := run_outdated_false dependencyTypes calls initial (by simp [initial])
      simp only [render, hflag, List.length_nil, gt_iff_lt, lt_self_iff_false, if_false,
        Bool.false_eq_true]
      exact (map_outdated_of_nil _ hinv).symm
    | cons o os =>
      simp [render, hflag]
  · intro hflag
    simp [render, hflag]

/-- Witness of C3: after a fetch from the example socket and with `lodash` outdated,
`lodash` is flagged and `jest` is not; with the filter on only `lodash` is shown. -/
theorem render_view_witness :
    render exampleProps
        { run exampleTypes initial [(exampleProps, .fetchDependencies)] with
          outdatedDependencies := ["lodash"] } =
        [⟨"lodash", "4.17.11", "dependencies", true, none⟩,
         ⟨"jest", "23.6.0", "devDependencies", false, none⟩,
         ⟨"lodash", "4.17.11", "devDependencies", true, none⟩] ∧
      render filteringProps
        { run exampleTypes initial [(exampleProps, .fetchDependencies)] with
          outdatedDependencies := ["lodash"] } =
        [⟨"lodash", "4.17.11", "dependencies", true, none⟩,
         ⟨"lodash", "4.17.11", "devDependencies", true, none⟩] :=
  ⟨((render_view exampleTypes [(exampleProps, .fetchDependencies)] exampleProps
        ["lodash"]).1 rfl).trans (by decide),
    ((render_view exampleTypes [(exampleProps, .fetchDependencies)] filteringProps
        ["lodash"]).2 rfl).trans (by decide)⟩

end DependenciesContext

end Glicky

namespace Glicky

namespace DependenciesContext

/-! ## The store: the outdated check -/

theorem getOutdatedDependencies_guardMatchesLog (p : Props) (s : Provider)
    (h : guardMatchesLog s) : guardMatchesLog (getOutdatedDependencies p s) := by
  unfold getOutdatedDependencies
  split
  · exact h
  · rename_i hg
    simp only [Bool.or_eq_true, not_or, Bool.not_eq_true] at hg
    unfold guardMatchesLog at h ⊢
    simp [h, hg.1]

theorem step_guardMatchesLog (dependencyTypes : List String) (s : Provider)
    (call : Props × Op) (h : guardMatchesLog s) :
    guardMatchesLog (step dependencyTypes s call) := by
  obtain ⟨p, op⟩ := call
  cases op with
  | componentDidMount =>
    simp only [step, componentDidMount]
    split
    · split
      · exact getOutdatedDependencies_guardMatchesLog p s h
      · exact h
    · exact h
  | fetchDependencies =>
    simp only [step, fetchDependencies]
    split
    · exact h
    · exact getOutdatedDependencies_guardMatchesLog p _ h
  | getOutdatedDependencies =>
    exact getOutdatedDependencies_guardMatchesLog p s h
  | execCallback out =>
    simp only [step, execCallback]
    split <;> exact h
  | addDependency n t =>
    simp only [step, addDependency]
    cases _addDependency p n t with
    | resolved v =>
      cases getAllDependencies p dependencyTypes with
      | none => exact h
      | some deps => exact h
    | rejected => exact h
    | pending => exact h
  | deleteDependency dep =>
    simp only [step, deleteDependency]
    cases _deleteDependency p dep with
    | resolved v => exact h
    | rejected => exact h
    | pending => exact h

theorem run_guardMatchesLog (dependencyTypes : List String) (calls : List (Props × Op)) :
    ∀ s : Provider, guardMatchesLog s → guardMatchesLog (run dependencyTypes s calls) := by
  induction calls with
  | nil => intro s h; exact h
  | cons c cs ih =>
    intro s h
    exact ih (step dependencyTypes s c) (step_guardMatchesLog dependencyTypes s c h)

/-- C4. After any sequence of operations on a provider, under any props, at most one
`'exec'` message has been emitted, and it is `npm outdated --json`; and once
`hasFetchedOutdatedDeps` is set, `getOutdatedDependencies` emits nothing and leaves
the provider as it is. -/
theorem outdated_query_at_most_once (dependencyTypes : List String)
    (calls : List (Props × Op)) :
    (run dependencyTypes initial calls).execLog.length ≤ 1 ∧
      (∀ command ∈ (run dependencyTypes initial calls).execLog,
        command = "npm outdated --json") ∧
      (∀ (p : Props) (s : Provider), s.hasFetchedOutdatedDeps = true →
        getOutdatedDependencies p s = s) := by
  have hinv : guardMatchesLog (run dependencyTypes initial calls) :=
    run_guardMatchesLog dependencyTypes calls initial (by simp [guardMatchesLog, initial])
  unfold guardMatchesLog at hinv
  refine ⟨?_, ?_, ?_⟩
  · rw [hinv]; split <;> simp
  · rw [hinv]; split <;> simp
  · intro p s hs
    simp [getOutdatedDependencies, hs]

/-- Witness of C4: a mount with the check on startup, two fetches, the answer of the
check and an explicit call emit one command, and a further call changes nothing. -/
theorem outdated_query_at_most_once_witness :
    (run exampleTypes initial
        [(filteringProps, .componentDidMount), (exampleProps, .fetchDependencies),
         (exampleProps, .execCallback ["lodash"]), (exampleProps, .fetchDependencies),
         (exampleProps, .getOutdatedDependencies)]).execLog.length ≤ 1 ∧
      getOutdatedDependencies exampleProps
          (run exampleTypes initial [(filteringProps, .componentDidMount)]) =
        run exampleTypes initial [(filteringProps, .componentDidMount)] :=
  ⟨(outdated_query_at_most_once exampleTypes
        [(filteringProps, .componentDidMount), (exampleProps, .fetchDependencies),
         (exampleProps, .execCallback ["lodash"]), (exampleProps, .fetchDependencies),
         (exampleProps, .getOutdatedDependencies)]).1,
    (outdated_query_at_most_once exampleTypes []).2.2 exampleProps
        (run exampleTypes initial [(filteringProps, .componentDidMount)]) (by decide)⟩

end DependenciesContext

end Glicky

namespace Glicky

/-! ## The order of JavaScript strings -/

theorem char_toNat_valid (c : Char) :
    c.toNat < 0xD800 ∨ (0xDFFF < c.toNat ∧ c.toNat < 0x110000) := by
  have h := c.valid
  simpa [UInt32.isValidChar, Nat.isValidChar, Char.toNat] using h

theorem char_eq_of_toNat_eq {c d : Char} (h : c.toNat = d.toNat) : c = d :=
  Char.ext (UInt32.ext h)

theorem charCodeUnits_append_inj {c d : Char} {r t : List Nat}
    (h : charCodeUnits c ++ r = charCodeUnits d ++ t) : c = d ∧ r = t := by
  have hc := char_toNat_valid c
  have hd := char_toNat_valid d
  unfold charCodeUnits at h
  by_cases h1 : c.toNat < 0x10000 <;> by_cases h2 : d.toNat < 0x10000
  · simp only [h1, h2, if_true, List.singleton_append, List.cons.injEq] at h
    exact ⟨char_eq_of_toNat_eq h.1, h.2⟩
  · simp only [h1, h2, if_true, if_false, List.singleton_append, List.cons_append,
      List.nil_append, List.cons.injEq] at h
    omega
  · simp only [h1, h2, if_true, if_false, List.singleton_append, List.cons_append,
      List.nil_append, List.cons.injEq] at h
    omega
  · simp only [h1, h2, if_false, List.cons_append, List.nil_append, List.cons.injEq] at h
    refine ⟨char_eq_of_toNat_eq ?_, h.2.2⟩
    omega

theorem flatMap_charCodeUnits_inj :
    ∀ (a b : List Char), a.flatMap charCodeUnits = b.flatMap charCodeUnits → a = b
  | [], [] => fun _ => rfl
  | [], d :: b => by
      intro h
      have hd := char_toNat_valid d
      simp only [List.flatMap_nil, List.flatMap_cons, charCodeUnits] at h
      split at h <;> simp at h
  | c :: a, [] => by
      intro h
      simp only [List.flatMap_nil, List.flatMap_cons, charCodeUnits] at h
      split at h <;> simp at h
  | c :: a, d :: b => by
      intro h
      simp only [List.flatMap_cons] at h
      obtain ⟨h1, h2⟩ := charCodeUnits_append_inj h
      rw [h1, flatMap_charCodeUnits_inj a b h2]

theorem codeUnits_inj {a b : String} (h : codeUnits a = codeUnits b) : a = b := by
  cases a; cases b
  simp only [codeUnits] at h
  rw [flatMap_charCodeUnits_inj _ _ h]

theorem jsLt_irrefl (a : String) : jsLt a a = false := by
  simp [jsLt]

theorem jsLt_trans {a b c : String} (h1 : jsLt a b = true) (h2 : jsLt b c = true) :
    jsLt a c = true := by
  simp only [jsLt, decide_eq_true_eq] at *
  exact lt_trans h1 h2

theorem jsLt_asymm {a b : String} (h1 : jsLt a b = true) : jsLt b a = false := by
  simp only [jsLt, decide_eq_true_eq, decide_eq_false_iff_not] at *
  exact lt_asymm h1

theorem jsLt_total {a b : String} (h : a ≠ b) : jsLt a b = true ∨ jsLt b a = true := by
  simp only [jsLt, decide_eq_true_eq]
  rcases lt_trichotomy (codeUnits a) (codeUnits b) with h1 | h1 | h1
  · exact Or.inl h1
  · exact absurd (codeUnits_inj h1) h
  · exact Or.inr h1

theorem jsLt_false_antisymm {a b : String} (h1 : jsLt a b = false) (h2 : jsLt b a = false) :
    a = b := by
  by_contra hne
  rcases jsLt_total hne with h | h
  · rw [h1] at h; exact Bool.false_ne_true h
  · rw [h2] at h; exact Bool.false_ne_true h

theorem jsLt_false_trans {a b c : String} (h1 : jsLt b a = false) (h2 : jsLt c b = false) :
    jsLt c a = false := by
  simp only [jsLt, decide_eq_false_iff_not, not_lt] at *
  exact le_trans h1 h2

namespace DependenciesList

/-! ## Sorting -/

theorem sortInsert_perm {α : Type} (comparefn : α → α → Int) (a : α) (l : List α) :
    (sortInsert comparefn a l).Perm (a :: l) := by
  induction l with
  | nil => exact List.Perm.refl _
  | cons b l ih =>
    unfold sortInsert
    split
    · exact List.Perm.refl _
    · exact (List.Perm.cons b ih).trans (List.Perm.swap a b l)

theorem arraySort_perm {α : Type} (comparefn : α → α → Int) (l : List α) :
    (arraySort comparefn l).Perm l := by
  induction l with
  | nil => exact List.Perm.refl _
  | cons a l ih =>
    unfold arraySort
    exact (sortInsert_perm comparefn a _).trans (List.Perm.cons a ih)

theorem sortInsert_pairwise {α : Type} (comparefn : α → α → Int)
    (htrans : ∀ a b c, comparefn a b ≤ 0 → comparefn b c ≤ 0 → comparefn a c ≤ 0)
    (a : α) (l : List α) (hsorted : l.Pairwise (fun x y => comparefn x y ≤ 0))
    (htotal : ∀ b ∈ l, comparefn a b ≤ 0 ∨ comparefn b a ≤ 0) :
    (sortInsert comparefn a l).Pairwise (fun x y => comparefn x y ≤ 0) := by
  induction l with
  | nil => simp [sortInsert]
  | cons b l ih =>
    rw [List.pairwise_cons] at hsorted
    unfold sortInsert
    split
    · rename_i hab
      rw [List.pairwise_cons]
      refine ⟨?_, List.pairwise_cons.mpr hsorted⟩
      intro x hx
      rcases List.mem_cons.mp hx with rfl | hx
      · exact hab
      · exact htrans a b x hab (hsorted.1 x hx)
    · rename_i hab
      have hba : comparefn b a ≤ 0 := by
        rcases htotal b (List.mem_cons_self b l) with h | h
        · exact absurd h hab
        · exact h
      rw [List.pairwise_cons]
      refine ⟨?_, ih hsorted.2 (fun x hx => htotal x (List.mem_cons_of_mem b hx))⟩
      intro x hx
      rcases List.mem_cons.mp ((sortInsert_perm comparefn a l).subset hx) with rfl | hx
      · exact hba
      · exact hsorted.1 x hx

theorem arraySort_pairwise {α : Type} (comparefn : α → α → Int)
    (htrans : ∀ a b c, comparefn a b ≤ 0 → comparefn b c ≤ 0 → comparefn a c ≤ 0)
    (l : List α) (htotal : l.Pairwise (fun a b => comparefn a b ≤ 0 ∨ comparefn b a ≤ 0)) :
    (arraySort comparefn l).Pairwise (fun x y => comparefn x y ≤ 0) := by
  induction l with
  | nil => simp [arraySort]
  | cons a l ih =>
    rw [List.pairwise_cons] at htotal
    unfold arraySort
    exact sortInsert_pairwise comparefn htrans a _ (ih htotal.2)
      (fun b hb => htotal.1 b ((arraySort_perm comparefn l).subset hb))

theorem compareFn_name_asc (a b : Dependency) :
    compareFn { key := .name, order := .asc } a b ≤ 0 ↔ jsLt b.name a.name = false := by
  unfold compareFn
  cases h1 : jsLt a.name b.name <;> cases h2 : jsLt b.name a.name <;> simp
  rw [jsLt_asymm h1] at h2
  exact Bool.false_ne_true h2

theorem compareFn_name_desc (a b : Dependency) :
    compareFn { key := .name, order := .desc } a b ≤ 0 ↔ jsLt a.name b.name = false := by
  unfold compareFn
  cases h1 : jsLt a.name b.name <;> cases h2 : jsLt b.name a.name <;> simp

theorem compareFn_type (order : Order) (a b : Dependency) :
    compareFn { key := .type, order := order } a b ≤ 0 ↔
      (typeBefore order a b = true ∨ (a.type = b.type ∧ jsLt a.name b.name = true)) := by
  unfold compareFn typeBefore
  cases h1 : jsLt a.type b.type <;> cases h2 : jsLt b.type a.type
  · have heq : a.type = b.type := jsLt_false_antisymm h1 h2
    cases order <;> cases h3 : jsLt a.name b.name <;> simp [heq]
  · have hne : a.type ≠ b.type := by
      intro heq; rw [heq, jsLt_irrefl] at h2; exact Bool.false_ne_true h2
    cases order <;> simp [hne]
  · have hne : a.type ≠ b.type := by
      intro heq; rw [heq, jsLt_irrefl] at h1; exact Bool.false_ne_true h1
    cases order <;> simp [hne]
  · rw [jsLt_asymm h1] at h2
    exact absurd h2 Bool.false_ne_true

end DependenciesList

end Glicky

namespace Glicky

namespace DependenciesList

theorem typeBefore_trans (order : Order) {a b c : Dependency}
    (h1 : typeBefore order a b = true) (h2 : typeBefore order b c = true) :
    typeBefore order a c = true := by
  cases order
  · exact jsLt_trans h1 h2
  · exact jsLt_trans h2 h1

theorem compareFn_type_trans (order : Order) (a b c : Dependency)
    (h1 : compareFn { key := .type, order := order } a b ≤ 0)
    (h2 : compareFn { key := .type, order := order } b c ≤ 0) :
    compareFn { key := .type, order := order } a c ≤ 0 := by
  rw [compareFn_type] at h1 h2 ⊢
  rcases h1 with h1 | ⟨e1, n1⟩ <;> rcases h2 with h2 | ⟨e2, n2⟩
  · exact Or.inl (typeBefore_trans order h1 h2)
  · left
    unfold typeBefore at h1 ⊢
    rw [← e2]; exact h1
  · left
    unfold typeBefore at h2 ⊢
    rw [e1]; exact h2
  · exact Or.inr ⟨e1.trans e2, jsLt_trans n1 n2⟩

theorem compareFn_type_total (order : Order) (a b : Dependency) (h : a.name ≠ b.name) :
    compareFn { key := .type, order := order } a b ≤ 0 ∨
      compareFn { key := .type, order := order } b a ≤ 0 := by
  rw [compareFn_type, compareFn_type]
  by_cases ht : a.type = b.type
  · rcases jsLt_total h with hn | hn
    · exact Or.inl (Or.inr ⟨ht, hn⟩)
    · exact Or.inr (Or.inr ⟨ht.symm, hn⟩)
  · rcases jsLt_total ht with hlt | hlt <;> cases order
    · exact Or.inl (Or.inl hlt)
    · exact Or.inr (Or.inl hlt)
    · exact Or.inr (Or.inl hlt)
    · exact Or.inl (Or.inl hlt)

theorem sortDependencies_name_asc_sorted (s : State) (hs : s.sort = { key := .name, order := .asc })
    (dependencies : List Dependency) (h : (dependencies.map Dependency.name).Nodup) :
    (sortDependencies s dependencies).Pairwise (fun a b => jsLt a.name b.name = true) := by
  unfold sortDependencies
  rw [hs]
  have hsorted := arraySort_pairwise (compareFn { key := .name, order := .asc })
    (fun a b c h1 h2 => by
      rw [compareFn_name_asc] at h1 h2 ⊢
      exact jsLt_false_trans h1 h2)
    dependencies
    (List.pairwise_of_forall (fun a b => by
      rw [compareFn_name_asc, compareFn_name_asc]
      cases hab : jsLt a.name b.name
      · exact Or.inr rfl
      · exact Or.inl (jsLt_asymm hab)))
  have hnodup : (arraySort (compareFn { key := .name, order := .asc }) dependencies).Pairwise
      (fun a b => a.name ≠ b.name) := by
    have := ((arraySort_perm (compareFn { key := .name, order := .asc }) dependencies).map
      Dependency.name).nodup_iff.mpr h
    rwa [List.Nodup, List.pairwise_map] at this
  refine (hsorted.and hnodup).imp ?_
  intro a b hab
  rw [compareFn_name_asc] at hab
  rcases jsLt_total hab.2 with h1 | h1
  · exact h1
  · rw [hab.1] at h1; exact absurd h1 Bool.false_ne_true

theorem sortDependencies_name_desc_sorted (s : State)
    (hs : s.sort = { key := .name, order := .desc })
    (dependencies : List Dependency) (h : (dependencies.map Dependency.name).Nodup) :
    (sortDependencies s dependencies).Pairwise (fun a b => jsLt b.name a.name = true) := by
  unfold sortDependencies
  rw [hs]
  have hsorted := arraySort_pairwise (compareFn { key := .name, order := .desc })
    (fun a b c h1 h2 => by
      rw [compareFn_name_desc] at h1 h2 ⊢
      exact jsLt_false_trans h2 h1)
    dependencies
    (List.pairwise_of_forall (fun a b => by
      rw [compareFn_name_desc, compareFn_name_desc]
      cases hab : jsLt a.name b.name
      · exact Or.inl rfl
      · exact Or.inr (jsLt_asymm hab)))
  have hnodup : (arraySort (compareFn { key := .name, order := .desc }) dependencies).Pairwise
      (fun a b => a.name ≠ b.name) := by
    have := ((arraySort_perm (compareFn { key := .name, order := .desc }) dependencies).map
      Dependency.name).nodup_iff.mpr h
    rwa [List.Nodup, List.pairwise_map] at this
  refine (hsorted.and hnodup).imp ?_
  intro a b hab
  rw [compareFn_name_desc] at hab
  rcases jsLt_total hab.2 with h1 | h1
  · rw [hab.1] at h1; exact absurd h1 Bool.false_ne_true
  · exact h1

theorem eq_of_perm_of_name_desc {l₁ l₂ : List Dependency} (hp : l₁.Perm l₂)
    (h1 : l₁.Pairwise (fun a b => jsLt b.name a.name = true))
    (h2 : l₂.Pairwise (fun a b => jsLt b.name a.name = true)) : l₁ = l₂ := by
  haveI : IsAntisymm Dependency (fun a b => jsLt b.name a.name = true) :=
    ⟨fun a b hab hba => by
      rw [jsLt_asymm hab] at hba
      exact absurd hba Bool.false_ne_true⟩
  exact List.eq_of_perm_of_sorted hp h1 h2

theorem sortDependenciesRef_spec (s : State) (heap : Heap) (r : Nat)
    (dependencies : List Dependency) (h : heap[r]? = some dependencies) :
    (sortDependenciesRef s heap r).1[r]? = some dependencies ∧
      (sortDependenciesRef s heap r).1[(sortDependenciesRef s heap r).2]? =
        some (sortDependencies s dependencies) := by
  have hr : r < heap.length := by
    rcases Nat.lt_or_ge r heap.length with hlt | hge
    · exact hlt
    · rw [List.getElem?_eq_none hge] at h; exact absurd h (by simp)
  have hget : heap.getD r [] = dependencies := by
    simp [List.getD_eq_getElem?_getD, h]
  simp only [sortDependenciesRef, sortInPlace, spread, sortDependencies, hget]
  constructor
  · rw [List.getElem?_set_ne (Nat.ne_of_gt hr), List.getElem?_append_left hr]
    exact h
  · rw [List.getElem?_set_self (by simp)]
    simp

end DependenciesList

end Glicky

namespace Glicky

namespace DependenciesList

/-- C6. For dependencies with pairwise distinct names, `sortDependencies` in the
initial state returns a permutation of its argument in strictly ascending name
order; the array passed in keeps its contents while the sorted array is a new one;
`setSort('name')` turns the initial sort into name descending, under which
`sortDependencies` returns the reverse of the ascending result. -/
theorem sortDependencies_by_name (dependencies : List Dependency)
    (h : (dependencies.map Dependency.name).Nodup) :
    (sortDependencies initial dependencies).Perm dependencies ∧
      (sortDependencies initial dependencies).Pairwise
        (fun a b => jsLt a.name b.name = true) ∧
      (∀ (s : State) (heap : Heap) (r : Nat), heap[r]? = some dependencies →
        (sortDependenciesRef s heap r).1[r]? = some dependencies ∧
          (sortDependenciesRef s heap r).1[(sortDependenciesRef s heap r).2]? =
            some (sortDependencies s dependencies)) ∧
      (setSort initial .name).sort = { key := .name, order := .desc } ∧
      sortDependencies (setSort initial .name) dependencies =
        (sortDependencies initial dependencies).reverse := by
  have hasc := sortDependencies_name_asc_sorted initial rfl dependencies h
  have hdesc := sortDependencies_name_desc_sorted (setSort initial .name) rfl dependencies h
  refine ⟨arraySort_perm _ _, hasc, ?_, rfl, ?_⟩
  · intro s heap r hr
    exact sortDependenciesRef_spec s heap r dependencies hr
  · refine eq_of_perm_of_name_desc ?_ hdesc (List.pairwise_reverse.mpr hasc)
    exact (arraySort_perm _ _).trans
      (((List.reverse_perm _).trans (arraySort_perm _ _)).symm)

/-- Witness of C6: the names `b`, `a`, `a2` sort to `a`, `a2`, `b` and, after the
toggle, to `b`, `a2`, `a`. -/
theorem sortDependencies_by_name_witness :
    (([⟨"b", "1.0.0", "dependencies", false, none⟩,
        ⟨"a", "1.0.0", "dependencies", false, none⟩,
        ⟨"a2", "1.0.0", "dependencies", false, none⟩] : List Dependency).map
      Dependency.name).Nodup ∧
      (sortDependencies initial
          [⟨"b", "1.0.0", "dependencies", false, none⟩,
           ⟨"a", "1.0.0", "dependencies", false, none⟩,
           ⟨"a2", "1.0.0", "dependencies", false, none⟩]).map Dependency.name =
        ["a", "a2", "b"] ∧
      (sortDependencies (setSort initial .name)
          [⟨"b", "1.0.0", "dependencies", false, none⟩,
           ⟨"a", "1.0.0", "dependencies", false, none⟩,
           ⟨"a2", "1.0.0", "dependencies", false, none⟩]).map Dependency.name =
        ["b", "a2", "a"] :=
  ⟨by decide, by decide,
    ((sortDependencies_by_name
        [⟨"b", "1.0.0", "dependencies", false, none⟩,
         ⟨"a", "1.0.0", "dependencies", false, none⟩,
         ⟨"a2", "1.0.0", "dependencies", false, none⟩] (by decide)).2.2.2.2 ▸
      (by decide))⟩

/-- C7, counterexample. Sorted by type in descending order, two development
dependencies `z` and `a` come out as `a`, `z`: the names of equal types are not in
descending order. -/
theorem sortDependencies_type_desc_names_ascend :
    (([⟨"z", "1.0.0", "dev", false, none⟩, ⟨"a", "1.0.0", "dev", false, none⟩] :
        List Dependency).map Dependency.name).Nodup ∧
      sortDependencies (sortedBy .type .desc)
          [⟨"z", "1.0.0", "dev", false, none⟩, ⟨"a", "1.0.0", "dev", false, none⟩] =
        [⟨"a", "1.0.0", "dev", false, none⟩, ⟨"z", "1.0.0", "dev", false, none⟩] ∧
      ¬ (sortDependencies (sortedBy .type .desc)
          [⟨"z", "1.0.0", "dev", false, none⟩, ⟨"a", "1.0.0", "dev", false, none⟩]).Pairwise
        (fun a b => typeBefore .desc a b = true ∨
          (a.type = b.type ∧ nameBefore .desc a b = true)) := by
  refine ⟨by decide, by decide, ?_⟩
  rw [show sortDependencies (sortedBy .type .desc)
      [⟨"z", "1.0.0", "dev", false, none⟩, ⟨"a", "1.0.0", "dev", false, none⟩] =
      [⟨"a", "1.0.0", "dev", false, none⟩, ⟨"z", "1.0.0", "dev", false, none⟩] from by decide]
  decide

/-- C7, amended. For dependencies with pairwise distinct names and either order,
`sortDependencies` with key `type` returns a permutation of its argument ordered
by type in the sort order and, among entries of equal type, by ascending name. -/
theorem sortDependencies_by_type (s : State) (order : Order) (dependencies : List Dependency)
    (hs : s.sort = { key := .type, order := order })
    (h : (dependencies.map Dependency.name).Nodup) :
    (sortDependencies s dependencies).Perm dependencies ∧
      (sortDependencies s dependencies).Pairwise
        (fun a b => typeBefore order a b = true ∨
          (a.type = b.type ∧ nameBefore .asc a b = true)) := by
  refine ⟨arraySort_perm _ _, ?_⟩
  unfold sortDependencies
  rw [hs]
  have hne : dependencies.Pairwise (fun a b => a.name ≠ b.name) := by
    rwa [List.Nodup, List.pairwise_map] at h
  have hsorted := arraySort_pairwise (compareFn { key := .type, order := order })
    (compareFn_type_trans order) dependencies
    (hne.imp (fun {a b} hab => compareFn_type_total order a b hab))
  exact hsorted.imp (fun {a b} hab => (compareFn_type order a b).mp hab)

/-- Witness of the amended C7: in both orders the development dependencies `z` and
`a` come out as `a`, `z`. -/
theorem sortDependencies_by_type_witness :
    (sortDependencies (sortedBy .type .desc)
        [⟨"z", "1.0.0", "dev", false, none⟩, ⟨"a", "1.0.0", "dev", false, none⟩]).Pairwise
      (fun a b => typeBefore .desc a b = true ∨
        (a.type = b.type ∧ nameBefore .asc a b = true)) ∧
      (sortDependencies (sortedBy .type .asc)
        [⟨"z", "1.0.0", "dev", false, none⟩, ⟨"a", "1.0.0", "dev", false, none⟩]).map
        Dependency.name = ["a", "z"] :=
  ⟨(sortDependencies_by_type (sortedBy .type .desc) .desc
      [⟨"z", "1.0.0", "dev", false, none⟩, ⟨"a", "1.0.0", "dev", false, none⟩] rfl
      (by decide)).2,
    by decide⟩

end DependenciesList

end Glicky

namespace Glicky

namespace DependenciesList

/-! ## Expansion and the delete confirmation -/

theorem expanded_same_name (s : State) (a b : Dependency) (ha : expanded s a = true)
    (hb : expanded s b = true) : a.name = b.name := by
  unfold expanded at ha hb
  cases he : s.expandedDependency with
  | none => simp [he] at ha
  | some e =>
    simp only [he, Bool.and_eq_true, beq_iff_eq] at ha hb
    exact ha.2.symm.trans hb.2

theorem togglePanel_of_expanded (s : State) (d : Dependency) (h : expanded s d = true) :
    togglePanel s d = { s with expandedItem := false } := by
  rcases s with ⟨item, dep, srt, del, modal⟩
  cases item
  · simp [expanded] at h
  · cases dep with
    | none => simp [expanded] at h
    | some e =>
      simp only [expanded, Bool.true_and, beq_iff_eq] at h
      simp [togglePanel, h]

theorem togglePanel_of_not_expanded (s : State) (d : Dependency)
    (h : expanded s d = false) :
    togglePanel s d = { s with expandedItem := true, expandedDependency := some d } := by
  rcases s with ⟨item, dep, srt, del, modal⟩
  cases item
  · simp [togglePanel]
  · cases dep with
    | none => simp [togglePanel]
    | some e =>
      simp only [expanded, Bool.true_and, beq_eq_false_iff_ne, ne_eq] at h
      simp [togglePanel, h]

theorem expanded_togglePanel_of_not_expanded (s : State) (d row : Dependency)
    (h : expanded s d = false) :
    expanded (togglePanel s d) row = decide (d.name = row.name) := by
  rw [togglePanel_of_not_expanded s d h]
  by_cases hn : d.name = row.name <;> simp [expanded, hn]

theorem not_expanded_after_togglePanel (s : State) (X Y : Dependency)
    (hXY : X.name ≠ Y.name) : expanded (togglePanel s X) Y = false := by
  cases hX : expanded s X
  · rw [expanded_togglePanel_of_not_expanded s X Y hX]
    simp [hXY]
  · rw [togglePanel_of_expanded s X hX]
    simp [expanded]

/-- C8. In every state reached from the initial state, all rows that render as
expanded carry the same name; from any state, `togglePanel(X)` followed by
`togglePanel(Y)` with different names leaves exactly the rows named `Y.name`
expanded, so no row named `X.name`; and `togglePanel` on a dependency whose row is
expanded leaves no row expanded. -/
theorem expansion_exclusive (events : List Event) :
    (∀ a b : Dependency, expanded (run initial events) a = true →
        expanded (run initial events) b = true → a.name = b.name) ∧
      (∀ (s : State) (X Y row : Dependency), X.name ≠ Y.name →
        expanded (togglePanel (togglePanel s X) Y) row = decide (Y.name = row.name) ∧
          expanded (togglePanel (togglePanel s X) Y) Y = true ∧
          expanded (togglePanel (togglePanel s X) Y) X = false) ∧
      (∀ (s : State) (d row : Dependency), expanded s d = true →
        expanded (togglePanel s d) row = false) := by
  refine ⟨fun a b => expanded_same_name _ a b, ?_, ?_⟩
  · intro s X Y row hXY
    have hYX : ¬ Y.name = X.name := fun h => hXY h.symm
    have key : ∀ r : Dependency,
        expanded (togglePanel (togglePanel s X) Y) r = decide (Y.name = r.name) :=
      fun r => expanded_togglePanel_of_not_expanded _ Y r
        (not_expanded_after_togglePanel s X Y hXY)
    refine ⟨key row, ?_, ?_⟩
    · rw [key]; simp
    · rw [key]; simp [hYX]
  · intro s d row hd
    rw [togglePanel_of_expanded s d hd]
    simp [expanded]

/-- Witness of C8: after `lodash` then `jest` only `jest` is expanded, and a second
`jest` collapses it. -/
theorem expansion_exclusive_witness :
    expanded
        (togglePanel (togglePanel initial ⟨"lodash", "4.17.11", "dependencies", false, none⟩)
          ⟨"jest", "23.6.0", "devDependencies", false, none⟩)
        ⟨"lodash", "4.17.11", "dependencies", false, none⟩ = false ∧
      expanded
        (togglePanel
          (togglePanel initial ⟨"jest", "23.6.0", "devDependencies", false, none⟩)
          ⟨"jest", "23.6.0", "devDependencies", false, none⟩)
        ⟨"jest", "23.6.0", "devDependencies", false, none⟩ = false :=
  ⟨((expansion_exclusive []).2.1 initial ⟨"lodash", "4.17.11", "dependencies", false, none⟩
        ⟨"jest", "23.6.0", "devDependencies", false, none⟩
        ⟨"lodash", "4.17.11", "dependencies", false, none⟩ (by decide)).2.2,
    (expansion_exclusive []).2.2
        (togglePanel initial ⟨"jest", "23.6.0", "devDependencies", false, none⟩)
        ⟨"jest", "23.6.0", "devDependencies", false, none⟩
        ⟨"jest", "23.6.0", "devDependencies", false, none⟩ (by decide)⟩

/-- C9. From a state with an expanded dependency and no delete in flight, the first
`handleDependencyDelete` calls `deleteDependency` with that dependency and the
second, made before the delete completes, calls nothing and changes nothing; in
every state with `deletingDependency` true, `handleDependencyDelete` calls nothing
and leaves the state as it is. -/
theorem confirm_twice_one_request (s : State) (d : Dependency)
    (hd : s.expandedDependency = some d) (hn : s.deletingDependency = false) :
    (handleDependencyDelete s).2 = some d ∧
      (handleDependencyDelete s).1.deletingDependency = true ∧
      handleDependencyDelete (handleDependencyDelete s).1 =
        ((handleDependencyDelete s).1, none) ∧
      (∀ t : State, t.deletingDependency = true → handleDependencyDelete t = (t, none)) := by
  have hall : ∀ t : State, t.deletingDependency = true →
      handleDependencyDelete t = (t, none) := by
    intro t ht
    unfold handleDependencyDelete
    cases t.expandedDependency with
    | none => rfl
    | some e => simp [ht]
  have h1 : handleDependencyDelete s = ({ s with deletingDependency := true }, some d) := by
    simp [handleDependencyDelete, hd, hn]
  refine ⟨by rw [h1], by rw [h1], ?_, hall⟩
  exact hall _ (by rw [h1])

/-- Witness of C9 with `lodash` expanded and the modal open. -/
theorem confirm_twice_one_request_witness :
    (handleDependencyDelete
        (run initial
          [.togglePanel ⟨"lodash", "4.17.11", "dependencies", false, none⟩,
           .handleDependencyRequestDelete])).2 =
        some ⟨"lodash", "4.17.11", "dependencies", false, none⟩ ∧
      (handleDependencyDelete
        (handleDependencyDelete
          (run initial
            [.togglePanel ⟨"lodash", "4.17.11", "dependencies", false, none⟩,
             .handleDependencyRequestDelete])).1).2 = none :=
  ⟨(confirm_twice_one_request
      (run initial
        [.togglePanel ⟨"lodash", "4.17.11", "dependencies", false, none⟩,
         .handleDependencyRequestDelete])
      ⟨"lodash", "4.17.11", "dependencies", false, none⟩ (by decide) (by decide)).1,
    congrArg Prod.snd
      (confirm_twice_one_request
        (run initial
          [.togglePanel ⟨"lodash", "4.17.11", "dependencies", false, none⟩,
           .handleDependencyRequestDelete])
        ⟨"lodash", "4.17.11", "dependencies", false, none⟩ (by decide) (by decide)).2.2.1⟩

/-- C10, counterexample. With `lodash` expanded, opening the modal, confirming and
then dismissing the modal leaves `deletingDependency` true with `modalOpen` false. -/
theorem deleting_outlives_modal :
    (run initial
        [.togglePanel ⟨"lodash", "4.17.11", "dependencies", false, none⟩,
         .handleDependencyRequestDelete, .handleDependencyDelete,
         .handleModalRequestClose]).deletingDependency = true ∧
      (run initial
        [.togglePanel ⟨"lodash", "4.17.11", "dependencies", false, none⟩,
         .handleDependencyRequestDelete, .handleDependencyDelete,
         .handleModalRequestClose]).modalOpen = false := by
  decide

theorem handleDependencyDelete_deleting (s : State) :
    (handleDependencyDelete s).1.deletingDependency =
      (s.deletingDependency || s.expandedDependency.isSome) := by
  rcases s with ⟨item, dep, srt, del, modal⟩
  cases dep <;> cases del <;> simp [handleDependencyDelete]

theorem handleDependencyDelete_frame (s : State) :
    (handleDependencyDelete s).1.modalOpen = s.modalOpen ∧
      (handleDependencyDelete s).1.expandedDependency = s.expandedDependency := by
  rcases s with ⟨item, dep, srt, del, modal⟩
  cases dep <;> cases del <;> simp [handleDependencyDelete]

theorem togglePanel_frame (s : State) (d : Dependency) :
    (togglePanel s d).deletingDependency = s.deletingDependency ∧
      (s.expandedDependency.isSome = true → (togglePanel s d).expandedDependency.isSome = true) := by
  cases h : expanded s d
  · rw [togglePanel_of_not_expanded s d h]
    exact ⟨rfl, fun _ => rfl⟩
  · rw [togglePanel_of_expanded s d h]
    exact ⟨rfl, fun hs => hs⟩

theorem step_deleting_has_expanded (s : State) (e : Event)
    (h : s.deletingDependency = true → s.expandedDependency.isSome = true) :
    (step s e).deletingDependency = true → (step s e).expandedDependency.isSome = true := by
  cases e with
  | togglePanel d =>
    intro hdel
    simp only [step] at hdel ⊢
    rw [(togglePanel_frame s d).1] at hdel
    exact (togglePanel_frame s d).2 (h hdel)
  | setSort k => exact h
  | handleDependencyRequestDelete => exact h
  | handleModalRequestClose => exact h
  | handleDependencyDelete =>
    intro hdel
    simp only [step] at hdel ⊢
    rw [handleDependencyDelete_deleting, Bool.or_eq_true] at hdel
    rw [(handleDependencyDelete_frame s).2]
    rcases hdel with hdel | hdel
    · exact h hdel
    · exact hdel
  | deleteResolved =>
    intro hdel
    simp [step, deleteResolved] at hdel
  | deleteRejected => exact h

theorem run_deleting_has_expanded (events : List Event) :
    ∀ s : State, (s.deletingDependency = true → s.expandedDependency.isSome = true) →
      (run s events).deletingDependency = true →
      (run s events).expandedDependency.isSome = true := by
  induction events with
  | nil => intro s h; exact h
  | cons e es ih =>
    intro s h
    exact ih (step s e) (step_deleting_has_expanded s e h)

/-- C10, amended. In every state reached from the initial state by the handlers and
the completions of a delete, `deletingDependency` true implies that
`expandedDependency` is set, not that `modalOpen` is true: `handleDependencyDelete`
leaves `modalOpen` as it is and leaves `deletingDependency` true exactly when a
delete was in flight or a dependency is recorded as expanded;
`handleModalRequestClose` with a delete in flight gives `deletingDependency` true
with `modalOpen` false; and the success completion sets both to false. -/
theorem deleting_independent_of_modal (events : List Event) :
    ((run initial events).deletingDependency = true →
        (run initial events).expandedDependency.isSome = true) ∧
      (handleDependencyDelete (run initial events)).1.modalOpen =
        (run initial events).modalOpen ∧
      (handleDependencyDelete (run initial events)).1.deletingDependency =
        ((run initial events).deletingDependency ||
          (run initial events).expandedDependency.isSome) ∧
      ((run initial events).deletingDependency = true →
        (handleModalRequestClose (run initial events)).deletingDependency = true ∧
          (handleModalRequestClose (run initial events)).modalOpen = false) ∧
      (deleteResolved (run initial events)).deletingDependency = false ∧
      (deleteResolved (run initial events)).modalOpen = false := by
  refine ⟨run_deleting_has_expanded events initial (by decide),
    (handleDependencyDelete_frame _).1, handleDependencyDelete_deleting _, ?_, rfl, rfl⟩
  intro hdel
  exact ⟨hdel, rfl⟩

/-- Witness of the amended C10: with `lodash` expanded, the modal opened and the
delete confirmed, `lodash` is still recorded as expanded, and dismissing the modal
leaves the delete in flight behind a closed modal. -/
theorem deleting_independent_of_modal_witness :
    (run initial
        [.togglePanel ⟨"lodash", "4.17.11", "dependencies", false, none⟩,
         .handleDependencyRequestDelete, .handleDependencyDelete]).expandedDependency.isSome =
        true ∧
      (handleModalRequestClose
          (run initial
            [.togglePanel ⟨"lodash", "4.17.11", "dependencies", false, none⟩,
             .handleDependencyRequestDelete, .handleDependencyDelete])).deletingDependency =
        true ∧
      (handleModalRequestClose
          (run initial
            [.togglePanel ⟨"lodash", "4.17.11", "dependencies", false, none⟩,
             .handleDependencyRequestDelete, .handleDependencyDelete])).modalOpen = false :=
  ⟨(deleting_independent_of_modal
        [.togglePanel ⟨"lodash", "4.17.11", "dependencies", false, none⟩,
         .handleDependencyRequestDelete, .handleDependencyDelete]).1 (by decide),
    (deleting_independent_of_modal
        [.togglePanel ⟨"lodash", "4.17.11", "dependencies", false, none⟩,
         .handleDependencyRequestDelete, .handleDependencyDelete]).2.2.2.1 (by decide)⟩

end DependenciesList

end Glicky
